import Mathlib

/-!
Shallow embedding of the VGA text-buffer console driver (`src/vga_buffer.rs`).

The grid of `ScreenChar` cells is modelled as a function `Nat → Nat → ScreenChar`;
the Rust `for` loops of `new_line`, `clear_row` and `write_string` become left
folds over the corresponding index ranges, reading from the evolving buffer
exactly as the source does.  Machine bytes are modelled as `Nat` values; the
only arithmetic performed on them by the source is the nibble packing of
`ColorCode::new`, where the `u8` shift is reduced modulo 256.
-/

namespace Vga

/-- The 16-value color enumeration (`Color` in the source, `#[repr(u8)]`). -/
inductive Color where
  | Black
  | Blue
  | Green
  | Cyan
  | Red
  | Magenta
  | Brown
  | LightGray
  | DarkGray
  | LightBlue
  | LightGreen
  | LightCyan
  | LightRed
  | Pink
  | Yellow
  | White
deriving DecidableEq, Repr

/-- The `u8` discriminant of a `Color` (the `as u8` cast in the source). -/
def Color.toNat : Color → Nat
  | .Black => 0
  | .Blue => 1
  | .Green => 2
  | .Cyan => 3
  | .Red => 4
  | .Magenta => 5
  | .Brown => 6
  | .LightGray => 7
  | .DarkGray => 8
  | .LightBlue => 9
  | .LightGreen => 10
  | .LightCyan => 11
  | .LightRed => 12
  | .Pink => 13
  | .Yellow => 14
  | .White => 15

/-- The `ColorCode`: a single attribute byte. -/
structure ColorCode where
  val : Nat
deriving DecidableEq, Repr

/-- The `ColorCode::new`: `(background as u8) << 4 | (foreground as u8)`.
The shift is `u8` arithmetic, hence reduced mod 256. -/
def ColorCode.new (foreground background : Color) : ColorCode :=
  ⟨((background.toNat <<< 4) % 256) ||| foreground.toNat⟩

/-- The `ScreenChar`: one on-screen cell, a display byte plus an attribute. -/
structure ScreenChar where
  ascii_character : Nat
  color_code : ColorCode
deriving DecidableEq, Repr

/-- The `BUFFER_HEIGHT` (rows). -/
def BUFFER_HEIGHT : Nat := 25

/-- The `BUFFER_WIDTH` (columns). -/
def BUFFER_WIDTH : Nat := 80

/-- The VGA buffer `chars` array, modelled as a cell-valued function of
(row, column). -/
def Buffer : Type := Nat → Nat → ScreenChar

/-- A single volatile write `self.buffer.chars[row][col].write(ch)`. -/
def writeCell (buf : Buffer) (row col : Nat) (ch : ScreenChar) : Buffer :=
  fun r c => if r = row ∧ c = col then ch else buf r c

/-- The `Writer` state: cursor column, current attribute, and the grid. -/
structure Writer where
  column_position : Nat
  color_code : ColorCode
  buffer : Buffer

/-- The `Writer::clear_row`: overwrite every column of `row` with a blank cell
(space byte, current attribute). -/
def Writer.clear_row (w : Writer) (row : Nat) : Writer :=
  let blank : ScreenChar := ⟨32, w.color_code⟩
  let buf :=
    (List.range BUFFER_WIDTH).foldl (fun b col => writeCell b row col blank) w.buffer
  { w with buffer := buf }

/-- The `Writer::new_line`: for each row `1..BUFFER_HEIGHT`, copy each cell of that
row up into the row above (reading from the evolving buffer, as the source
does), then clear the bottom row and reset the cursor column. -/
def Writer.new_line (w : Writer) : Writer :=
  let buf :=
    (List.range' 1 (BUFFER_HEIGHT - 1)).foldl
      (fun b row =>
        (List.range BUFFER_WIDTH).foldl
          (fun b2 col => writeCell b2 (row - 1) col (b2 row col)) b)
      w.buffer
  let w1 : Writer := { w with buffer := buf }
  let w2 := w1.clear_row (BUFFER_HEIGHT - 1)
  { w2 with column_position := 0 }

/-- The `Writer::write_byte`: newline scrolls; otherwise wrap when the cursor is
past the last column, store the cell at the bottom row, and advance. -/
def Writer.write_byte (w : Writer) (byte : Nat) : Writer :=
  if byte = 10 then
    w.new_line
  else
    let w1 := if w.column_position ≥ BUFFER_WIDTH then w.new_line else w
    let row := BUFFER_HEIGHT - 1
    let col := w1.column_position
    let character : ScreenChar := ⟨byte, w1.color_code⟩
    { w1 with buffer := writeCell w1.buffer row col character,
              column_position := w1.column_position + 1 }

/-- The `Writer::write_string`: printable ASCII (0x20–0x7e) and newline pass
through; every other byte is replaced by the placeholder glyph 0xfe. -/
def Writer.write_string (w : Writer) (s : List Nat) : Writer :=
  s.foldl
    (fun wr byte =>
      if (0x20 ≤ byte ∧ byte ≤ 0x7e) ∨ byte = 10 then wr.write_byte byte
      else wr.write_byte 0xfe)
    w

/-- A concrete buffer state (all cells zeroed) used for concrete witnesses. -/
def initBuffer : Buffer := fun _ _ => ⟨0, ⟨0⟩⟩

/-- A concrete writer in the `WRITER` initial configuration: column 0,
yellow-on-black attribute. -/
def initWriter : Writer :=
  ⟨0, ColorCode.new Color.Yellow Color.Black, initBuffer⟩

/-- A bounds-checked volatile write: `none` models an attempted out-of-bounds
access (in the source an index panic). -/
def writeCellChecked (buf : Buffer) (row col : Nat) (ch : ScreenChar) : Option Buffer :=
  if row < BUFFER_HEIGHT ∧ col < BUFFER_WIDTH then some (writeCell buf row col ch) else none

/-- A bounds-checked volatile read. -/
def readCellChecked (buf : Buffer) (row col : Nat) : Option ScreenChar :=
  if row < BUFFER_HEIGHT ∧ col < BUFFER_WIDTH then some (buf row col) else none

/-- The `clear_row` with every buffer access bounds-checked. -/
def Writer.clear_row_checked (w : Writer) (row : Nat) : Option Writer :=
  let blank : ScreenChar := ⟨32, w.color_code⟩
  let buf := (List.range BUFFER_WIDTH).foldlM
    (fun b col => writeCellChecked b row col blank) w.buffer
  buf.map (fun buf => { w with buffer := buf })

/-- The `new_line` with every buffer access bounds-checked. -/
def Writer.new_line_checked (w : Writer) : Option Writer := do
  let buf ← (List.range' 1 (BUFFER_HEIGHT - 1)).foldlM
    (fun b row =>
      (List.range BUFFER_WIDTH).foldlM
        (fun b2 col => do
          let ch ← readCellChecked b2 row col
          writeCellChecked b2 (row - 1) col ch)
        b)
    w.buffer
  let w2 ← Writer.clear_row_checked { w with buffer := buf } (BUFFER_HEIGHT - 1)
  some { w2 with column_position := 0 }

/-- The `write_byte` with every buffer access bounds-checked. -/
def Writer.write_byte_checked (w : Writer) (byte : Nat) : Option Writer :=
  if byte = 10 then w.new_line_checked
  else do
    let w1 ← if w.column_position ≥ BUFFER_WIDTH then w.new_line_checked else some w
    let buf ← writeCellChecked w1.buffer (BUFFER_HEIGHT - 1) w1.column_position
      ⟨byte, w1.color_code⟩
    some { w1 with buffer := buf, column_position := w1.column_position + 1 }

/-- The `write_string` with every buffer access bounds-checked. -/
def Writer.write_string_checked (w : Writer) (s : List Nat) : Option Writer :=
  s.foldlM
    (fun wr byte =>
      if (0x20 ≤ byte ∧ byte ≤ 0x7e) ∨ byte = 10 then wr.write_byte_checked byte
      else wr.write_byte_checked 0xfe)
    w

/-- Unfolding a single cell write. -/
theorem writeCell_apply (buf : Buffer) (row col : Nat) (ch : ScreenChar) (r c : Nat) :
    writeCell buf row col ch r c = if r = row ∧ c = col then ch else buf r c := rfl

/-- Folding a constant cell write over the columns `0..n` of a row fills the
first `n` columns of that row and touches nothing else. -/
theorem rangeWrite_apply (buf : Buffer) (row : Nat) (ch : ScreenChar) :
    ∀ n r c : Nat,
      (List.range n).foldl (fun b col => writeCell b row col ch) buf r c
        = if r = row ∧ c < n then ch else buf r c := by
  intro n
  induction n with
  | zero => intro r c; simp
  | succ n ih =>
    intro r c
    rw [List.range_succ, List.foldl_append, List.foldl_cons, List.foldl_nil,
      writeCell_apply, ih]
    split_ifs <;> first | rfl | omega

/-- Folding the copy-one-cell-up step over the columns `0..n` of row `row`
moves the first `n` columns of `row` into `row - 1`; reads of row `row` are
unaffected by the writes to `row - 1`, so the evolving-buffer reads of the
source loop see the original contents. -/
theorem rangeShift_apply (row : Nat) :
    ∀ (n : Nat) (buf : Buffer) (r c : Nat),
      (List.range n).foldl (fun b2 col => writeCell b2 (row - 1) col (b2 row col)) buf r c
        = if r = row - 1 ∧ c < n then buf row c else buf r c := by
  intro n
  induction n with
  | zero => intro buf r c; simp
  | succ n ih =>
    intro buf r c
    rw [List.range_succ, List.foldl_append, List.foldl_cons, List.foldl_nil,
      writeCell_apply, ih, ih]
    split_ifs <;> first | rfl | omega | (exfalso; omega) | (congr 2; omega)

/-- The scroll loop of `new_line` over rows `1..k+1` shifts the first `k` rows
up by one (within the first `BUFFER_WIDTH` columns) and leaves all other
cells unchanged. -/
theorem scrollFold_apply :
    ∀ (k : Nat) (buf : Buffer) (r c : Nat),
      (List.range' 1 k).foldl
          (fun b row =>
            (List.range BUFFER_WIDTH).foldl
              (fun b2 col => writeCell b2 (row - 1) col (b2 row col)) b)
          buf r c
        = if r < k ∧ c < BUFFER_WIDTH then buf (r + 1) c else buf r c := by
  intro k
  induction k with
  | zero => intro buf r c; simp
  | succ k ih =>
    intro buf r c
    rw [List.range'_1_concat, List.foldl_append, List.foldl_cons, List.foldl_nil,
      rangeShift_apply, ih, ih]
    split_ifs <;>
      first
        | rfl
        | omega
        | (exfalso; omega)
        | (exact congrFun (congrArg buf (by omega)) c)

/-- The `clear_row` blanks exactly the first `BUFFER_WIDTH` columns of the given
row, using the writer's current attribute. -/
theorem clear_row_buffer (w : Writer) (row r c : Nat) :
    (w.clear_row row).buffer r c
      = if r = row ∧ c < BUFFER_WIDTH then ⟨32, w.color_code⟩ else w.buffer r c := by
  simp only [Writer.clear_row]
  rw [rangeWrite_apply]

/-- The `clear_row` does not move the cursor. -/
theorem clear_row_column (w : Writer) (row : Nat) :
    (w.clear_row row).column_position = w.column_position := rfl

/-- The `clear_row` does not change the current attribute. -/
theorem clear_row_color (w : Writer) (row : Nat) :
    (w.clear_row row).color_code = w.color_code := rfl

/-- Pointwise description of the buffer after `new_line`: the bottom row is
blanked, every other on-screen row takes the contents of the row below it,
and out-of-range cells are untouched. -/
theorem new_line_buffer (w : Writer) (r c : Nat) :
    (w.new_line).buffer r c
      = if r = BUFFER_HEIGHT - 1 ∧ c < BUFFER_WIDTH then ⟨32, w.color_code⟩
        else if r < BUFFER_HEIGHT - 1 ∧ c < BUFFER_WIDTH then w.buffer (r + 1) c
        else w.buffer r c := by
  simp only [Writer.new_line]
  rw [clear_row_buffer]
  simp only [Writer.clear_row]
  rw [scrollFold_apply]

/-- The `new_line` resets the cursor column to 0. -/
theorem new_line_column (w : Writer) : (w.new_line).column_position = 0 := rfl

/-- The `new_line` does not change the current attribute. -/
theorem new_line_color (w : Writer) : (w.new_line).color_code = w.color_code := rfl

/-- The `write_byte` on the newline byte is exactly `new_line`. -/
theorem write_byte_newline (w : Writer) : w.write_byte 10 = w.new_line := rfl

/-- The `write_byte` on a non-newline byte with the cursor strictly inside the
row: no scroll, one cell store at the bottom row, cursor advance. -/
theorem write_byte_no_wrap (w : Writer) (b : Nat) (hb : b ≠ 10)
    (hcol : w.column_position < BUFFER_WIDTH) :
    w.write_byte b =
      { w with
          buffer := writeCell w.buffer (BUFFER_HEIGHT - 1) w.column_position ⟨b, w.color_code⟩,
          column_position := w.column_position + 1 } := by
  unfold Writer.write_byte
  rw [if_neg hb, if_neg (show ¬ w.column_position ≥ BUFFER_WIDTH by omega)]

/-- The `write_byte` on a non-newline byte with the cursor at or past the last
column: scroll first, then store at column 0 of the bottom row. -/
theorem write_byte_wrap (w : Writer) (b : Nat) (hb : b ≠ 10)
    (hcol : w.column_position ≥ BUFFER_WIDTH) :
    w.write_byte b =
      { w.new_line with
          buffer := writeCell (w.new_line).buffer (BUFFER_HEIGHT - 1) 0 ⟨b, w.color_code⟩,
          column_position := 1 } := by
  unfold Writer.write_byte
  rw [if_neg hb, if_pos hcol]
  rfl

/-- The `write_byte` never moves the cursor column past `BUFFER_WIDTH`. -/
theorem write_byte_column_le (w : Writer) (b : Nat) :
    (w.write_byte b).column_position ≤ BUFFER_WIDTH := by
  have hW : BUFFER_WIDTH = 80 := rfl
  by_cases hb : b = 10
  · subst hb
    rw [write_byte_newline, new_line_column]
    omega
  · by_cases hcol : w.column_position ≥ BUFFER_WIDTH
    · rw [write_byte_wrap w b hb hcol]
      show 1 ≤ BUFFER_WIDTH
      omega
    · rw [write_byte_no_wrap w b hb (by omega)]
      show w.column_position + 1 ≤ BUFFER_WIDTH
      omega

/-- The `write_byte` never changes the current attribute. -/
theorem write_byte_color (w : Writer) (b : Nat) :
    (w.write_byte b).color_code = w.color_code := by
  by_cases hb : b = 10
  · subst hb
    rw [write_byte_newline]
    exact new_line_color w
  · by_cases hcol : w.column_position ≥ BUFFER_WIDTH
    · rw [write_byte_wrap w b hb hcol]
      exact new_line_color w
    · rw [write_byte_no_wrap w b hb (by omega)]

/-- Unfolding one step of `write_string`. -/
theorem write_string_cons (w : Writer) (b : Nat) (s : List Nat) :
    w.write_string (b :: s)
      = (if (0x20 ≤ b ∧ b ≤ 0x7e) ∨ b = 10 then w.write_byte b
         else w.write_byte 0xfe).write_string s := by
  simp only [Writer.write_string, List.foldl_cons]

/-- The `write_string` never changes the current attribute. -/
theorem write_string_color (w : Writer) (s : List Nat) :
    (w.write_string s).color_code = w.color_code := by
  induction s generalizing w with
  | nil => rfl
  | cons b t ih =>
    rw [write_string_cons]
    split_ifs <;> rw [ih, write_byte_color]

/-- Claim C1: `write_byte` on the newline byte performs scroll-and-reset and
writes no cell; on any other byte, when the cursor column equals
`BUFFER_WIDTH` it scrolls first and then stores at column 0, and when the
cursor is inside the row it stores at the current column; in both cases the
cell stored at the bottom row holds the byte paired with the current
attribute and the cursor column becomes the store column plus one. -/
theorem write_byte_correct (w : Writer) (b : Nat) (hb : b ≠ 10) :
    w.write_byte 10 = w.new_line ∧
    (w.column_position = BUFFER_WIDTH →
      (w.write_byte b).buffer (BUFFER_HEIGHT - 1) 0 = ⟨b, w.color_code⟩ ∧
      (w.write_byte b).column_position = 1 ∧
      (w.write_byte b).buffer
        = writeCell (w.new_line).buffer (BUFFER_HEIGHT - 1) 0 ⟨b, w.color_code⟩) ∧
    (w.column_position < BUFFER_WIDTH →
      (w.write_byte b).buffer (BUFFER_HEIGHT - 1) w.column_position = ⟨b, w.color_code⟩ ∧
      (w.write_byte b).column_position = w.column_position + 1 ∧
      (w.write_byte b).buffer
        = writeCell w.buffer (BUFFER_HEIGHT - 1) w.column_position ⟨b, w.color_code⟩) := by
  refine ⟨write_byte_newline w, fun hcol => ?_, fun hcol => ?_⟩
  · rw [write_byte_wrap w b hb (by omega)]
    refine ⟨?_, rfl, rfl⟩
    show writeCell (w.new_line).buffer (BUFFER_HEIGHT - 1) 0 ⟨b, w.color_code⟩
      (BUFFER_HEIGHT - 1) 0 = ⟨b, w.color_code⟩
    rw [writeCell_apply, if_pos ⟨rfl, rfl⟩]
  · rw [write_byte_no_wrap w b hb hcol]
    refine ⟨?_, rfl, rfl⟩
    show writeCell w.buffer (BUFFER_HEIGHT - 1) w.column_position ⟨b, w.color_code⟩
      (BUFFER_HEIGHT - 1) w.column_position = ⟨b, w.color_code⟩
    rw [writeCell_apply, if_pos ⟨rfl, rfl⟩]

/-- Concrete check of Claim C1 on the initial writer with byte 65. -/
theorem write_byte_correct_witness :
    (initWriter.write_byte 65).buffer (BUFFER_HEIGHT - 1) initWriter.column_position
        = ⟨65, initWriter.color_code⟩ ∧
    (initWriter.write_byte 65).column_position = initWriter.column_position + 1 :=
  ⟨((write_byte_correct initWriter 65 (by decide)).2.2 (by decide)).1,
   ((write_byte_correct initWriter 65 (by decide)).2.2 (by decide)).2.1⟩

/-- Claim C2: `new_line` copies each row `r` of `1..BUFFER_HEIGHT-1` into row
`r-1`, blanks every on-screen column of the bottom row with a space in the
writer's current attribute, and resets the cursor column to 0; writing a
single newline byte performs exactly this scroll-and-reset. -/
theorem new_line_correct (w : Writer) :
    w.write_byte 10 = w.new_line ∧
    (∀ r c, 1 ≤ r → r ≤ BUFFER_HEIGHT - 1 → c < BUFFER_WIDTH →
      (w.new_line).buffer (r - 1) c = w.buffer r c) ∧
    (∀ c, c < BUFFER_WIDTH →
      (w.new_line).buffer (BUFFER_HEIGHT - 1) c = ⟨32, w.color_code⟩) ∧
    (w.new_line).column_position = 0 := by
  have hH : BUFFER_HEIGHT = 25 := rfl
  refine ⟨write_byte_newline w, fun r c h1 h2 hc => ?_, fun c hc => ?_, new_line_column w⟩
  · rw [new_line_buffer, if_neg (by omega), if_pos ⟨by omega, hc⟩]
    exact congrFun (congrArg w.buffer (by omega)) c
  · rw [new_line_buffer, if_pos ⟨rfl, hc⟩]

/-- Concrete check of Claim C2 on the initial writer. -/
theorem new_line_correct_witness :
    (initWriter.new_line).buffer 0 0 = initWriter.buffer 1 0 ∧
    (initWriter.new_line).buffer (BUFFER_HEIGHT - 1) 0 = ⟨32, initWriter.color_code⟩ ∧
    (initWriter.new_line).column_position = 0 :=
  ⟨(new_line_correct initWriter).2.1 1 0 (by decide) (by decide) (by decide),
   (new_line_correct initWriter).2.2.1 0 (by decide),
   (new_line_correct initWriter).2.2.2⟩

/-- Claim C3: `write_string` feeds every byte of the input, in order, to
`write_byte`, passing printable ASCII (0x20–0x7e) and newline through
unchanged and replacing every other byte by the fixed placeholder glyph
0xfe; in particular the non-printable byte 0x01 is stored as 0xfe, never as
its literal value. -/
theorem write_string_filters (w : Writer) (s : List Nat) :
    w.write_string s
      = s.foldl
          (fun wr byte =>
            wr.write_byte
              (if (0x20 ≤ byte ∧ byte ≤ 0x7e) ∨ byte = 10 then byte else 0xfe))
          w ∧
    (w.column_position < BUFFER_WIDTH →
      (w.write_string [1]).buffer (BUFFER_HEIGHT - 1) w.column_position
        = ⟨0xfe, w.color_code⟩) := by
  constructor
  · unfold Writer.write_string
    congr 1
    funext wr byte
    split_ifs <;> rfl
  · intro hcol
    have h1 : w.write_string [1] = w.write_byte 0xfe := by
      simp [Writer.write_string]
    rw [h1, write_byte_no_wrap w 0xfe (by omega) hcol]
    show writeCell w.buffer (BUFFER_HEIGHT - 1) w.column_position ⟨0xfe, w.color_code⟩
      (BUFFER_HEIGHT - 1) w.column_position = ⟨0xfe, w.color_code⟩
    rw [writeCell_apply, if_pos ⟨rfl, rfl⟩]

/-- Concrete check of Claim C3: the byte 0x01 lands as 0xfe on the initial
writer. -/
theorem write_string_filters_witness :
    (initWriter.write_string [1]).buffer (BUFFER_HEIGHT - 1) initWriter.column_position
      = ⟨0xfe, initWriter.color_code⟩ :=
  (write_string_filters initWriter [1]).2 (by decide)

/-- Claim C10: a non-newline `write_byte` with the cursor inside the row
changes only the cell at (BUFFER_HEIGHT-1, cursorColumn) and the cursor
column; and — unconditionally, for every byte (newline and wrap branches
included), string and row — no operation ever changes the writer's current
attribute. -/
theorem write_byte_frame (w : Writer) (b : Nat) (s : List Nat) (row : Nat) :
    (b ≠ 10 → w.column_position < BUFFER_WIDTH →
      (∀ r c, ¬(r = BUFFER_HEIGHT - 1 ∧ c = w.column_position) →
        (w.write_byte b).buffer r c = w.buffer r c) ∧
      (w.write_byte b).column_position = w.column_position + 1) ∧
    (w.write_byte b).color_code = w.color_code ∧
    (w.write_string s).color_code = w.color_code ∧
    (w.new_line).color_code = w.color_code ∧
    (w.clear_row row).color_code = w.color_code := by
  refine ⟨fun hb hcol => ⟨fun r c h => ?_, ?_⟩, write_byte_color w b,
    write_string_color w s, new_line_color w, clear_row_color w row⟩
  · rw [write_byte_no_wrap w b hb hcol]
    show writeCell w.buffer (BUFFER_HEIGHT - 1) w.column_position ⟨b, w.color_code⟩ r c
      = w.buffer r c
    rw [writeCell_apply, if_neg h]
  · rw [write_byte_no_wrap w b hb hcol]

/-- Concrete check of Claim C10 on the initial writer, including attribute
preservation on the newline branch of `write_byte`. -/
theorem write_byte_frame_witness :
    (initWriter.write_byte 65).buffer 0 0 = initWriter.buffer 0 0 ∧
    (initWriter.write_byte 65).column_position = initWriter.column_position + 1 ∧
    (initWriter.write_byte 10).color_code = initWriter.color_code ∧
    (initWriter.write_string [66]).color_code = initWriter.color_code :=
  ⟨((write_byte_frame initWriter 65 [66] 0).1 (by decide) (by decide)).1 0 0 (by decide),
   ((write_byte_frame initWriter 65 [66] 0).1 (by decide) (by decide)).2,
   (write_byte_frame initWriter 10 [66] 0).2.1,
   (write_byte_frame initWriter 65 [66] 0).2.2.1⟩

/-- The `write_string` keeps the cursor column within `BUFFER_WIDTH`. -/
theorem write_string_column_le (w : Writer) (s : List Nat)
    (hcol : w.column_position ≤ BUFFER_WIDTH) :
    (w.write_string s).column_position ≤ BUFFER_WIDTH := by
  induction s generalizing w with
  | nil => exact hcol
  | cons b t ih =>
    rw [write_string_cons]
    split_ifs <;> exact ih _ (write_byte_column_le _ _)

/-- Above the bottom row, `write_byte` either leaves a cell unchanged (no
scroll happened) or replaces it by the cell one row below (the scroll
copy). -/
theorem write_byte_buffer_above (w : Writer) (b : Nat) (r c : Nat)
    (hr : r < BUFFER_HEIGHT - 1) (hc : c < BUFFER_WIDTH) :
    (w.write_byte b).buffer r c = w.buffer r c ∨
    (w.write_byte b).buffer r c = w.buffer (r + 1) c := by
  have hH : BUFFER_HEIGHT = 25 := rfl
  by_cases hb : b = 10
  · subst hb
    right
    rw [write_byte_newline, new_line_buffer, if_neg (by omega), if_pos ⟨hr, hc⟩]
  · by_cases hw : w.column_position ≥ BUFFER_WIDTH
    · right
      rw [write_byte_wrap w b hb hw]
      show writeCell (w.new_line).buffer (BUFFER_HEIGHT - 1) 0 ⟨b, w.color_code⟩ r c
        = w.buffer (r + 1) c
      rw [writeCell_apply, if_neg (by omega), new_line_buffer, if_neg (by omega),
        if_pos ⟨hr, hc⟩]
    · left
      rw [write_byte_no_wrap w b hb (by omega)]
      show writeCell w.buffer (BUFFER_HEIGHT - 1) w.column_position ⟨b, w.color_code⟩ r c
        = w.buffer r c
      rw [writeCell_apply, if_neg (by omega)]

/-- Claim C5: the cursor column stays in `[0, BUFFER_WIDTH]` across every
operation, and `write_byte` stores cells only at the bottom row — a row
above the bottom is only ever left unchanged or overwritten by the scroll
copy of the row below it. -/
theorem cursor_invariant (w : Writer) (b : Nat) (s : List Nat) (row : Nat)
    (hcol : w.column_position ≤ BUFFER_WIDTH) :
    (w.write_byte b).column_position ≤ BUFFER_WIDTH ∧
    (w.write_string s).column_position ≤ BUFFER_WIDTH ∧
    (w.new_line).column_position ≤ BUFFER_WIDTH ∧
    (w.clear_row row).column_position ≤ BUFFER_WIDTH ∧
    (∀ r c, r < BUFFER_HEIGHT - 1 → c < BUFFER_WIDTH →
      (w.write_byte b).buffer r c = w.buffer r c ∨
      (w.write_byte b).buffer r c = w.buffer (r + 1) c) := by
  have hW : BUFFER_WIDTH = 80 := rfl
  refine ⟨write_byte_column_le w b, write_string_column_le w s hcol, ?_, ?_,
    fun r c hr hc => write_byte_buffer_above w b r c hr hc⟩
  · rw [new_line_column]
    omega
  · rw [clear_row_column]
    exact hcol

/-- Concrete check of Claim C5 on the initial writer. -/
theorem cursor_invariant_witness :
    (initWriter.write_byte 65).column_position ≤ BUFFER_WIDTH ∧
    (initWriter.write_string [66, 10]).column_position ≤ BUFFER_WIDTH ∧
    ((initWriter.write_byte 65).buffer 0 0 = initWriter.buffer 0 0 ∨
      (initWriter.write_byte 65).buffer 0 0 = initWriter.buffer 1 0) :=
  ⟨(cursor_invariant initWriter 65 [66, 10] 0 (by decide)).1,
   (cursor_invariant initWriter 65 [66, 10] 0 (by decide)).2.1,
   (cursor_invariant initWriter 65 [66, 10] 0 (by decide)).2.2.2.2 0 0 (by decide) (by decide)⟩

/-- Writing a run of printable non-newline bytes that fits in the remaining
room of the row: the cursor advances by the length of the run, the bytes
land in consecutive bottom-row columns paired with the current attribute,
and every other cell is untouched. -/
theorem write_string_run (s : List Nat) : ∀ w : Writer,
    (∀ b ∈ s, 0x20 ≤ b ∧ b ≤ 0x7e) →
    w.column_position + s.length ≤ BUFFER_WIDTH →
    (w.write_string s).column_position = w.column_position + s.length ∧
    (w.write_string s).color_code = w.color_code ∧
    (∀ r c, (r ≠ BUFFER_HEIGHT - 1 ∨ c < w.column_position ∨
        w.column_position + s.length ≤ c) →
      (w.write_string s).buffer r c = w.buffer r c) ∧
    (∀ i, i < s.length →
      (w.write_string s).buffer (BUFFER_HEIGHT - 1) (w.column_position + i)
        = ⟨s.getD i 0, w.color_code⟩) := by
  induction s with
  | nil =>
    intro w _ _
    exact ⟨rfl, rfl, fun r c _ => rfl, fun i hi => absurd hi (by simp)⟩
  | cons b t ih =>
    intro w hp hroom
    have hb : 0x20 ≤ b ∧ b ≤ 0x7e := hp b (List.mem_cons_self b t)
    have hb10 : b ≠ 10 := by omega
    have hlen : (b :: t).length = t.length + 1 := rfl
    have hcol : w.column_position < BUFFER_WIDTH := by omega
    rw [write_string_cons, if_pos (Or.inl hb), write_byte_no_wrap w b hb10 hcol]
    obtain ⟨ihcol, ihcolor, ihframe, ihcontent⟩ :=
      ih { w with
            buffer := writeCell w.buffer (BUFFER_HEIGHT - 1) w.column_position
              ⟨b, w.color_code⟩,
            column_position := w.column_position + 1 }
        (fun x hx => hp x (List.mem_cons_of_mem b hx))
        (by show w.column_position + 1 + t.length ≤ BUFFER_WIDTH; omega)
    refine ⟨?_, ihcolor, fun r c h => ?_, fun i hi => ?_⟩
    · rw [ihcol]
      show w.column_position + 1 + t.length = w.column_position + (t.length + 1)
      omega
    · have hcond : r ≠ BUFFER_HEIGHT - 1 ∨ c < w.column_position + 1 ∨
          w.column_position + 1 + t.length ≤ c := by
        rcases h with h | h | h
        · exact Or.inl h
        · exact Or.inr (Or.inl (by omega))
        · exact Or.inr (Or.inr (by omega))
      rw [ihframe r c hcond]
      show writeCell w.buffer (BUFFER_HEIGHT - 1) w.column_position ⟨b, w.color_code⟩ r c
        = w.buffer r c
      rw [writeCell_apply, if_neg (by omega)]
    · match i, hi with
      | 0, _ =>
        have hcond : BUFFER_HEIGHT - 1 ≠ BUFFER_HEIGHT - 1 ∨
            w.column_position + 0 < w.column_position + 1 ∨
            w.column_position + 1 + t.length ≤ w.column_position + 0 :=
          Or.inr (Or.inl (by omega))
        rw [ihframe (BUFFER_HEIGHT - 1) (w.column_position + 0) hcond]
        show writeCell w.buffer (BUFFER_HEIGHT - 1) w.column_position ⟨b, w.color_code⟩
          (BUFFER_HEIGHT - 1) (w.column_position + 0) = ⟨b, w.color_code⟩
        rw [writeCell_apply, if_pos ⟨rfl, rfl⟩]
      | j + 1, hj =>
        have hidx : w.column_position + (j + 1) = w.column_position + 1 + j := by omega
        rw [hidx]
        exact ihcontent j (by omega)

/-- Claim C4 as stated is false on the code: starting from cursor column 0,
writing `BUFFER_WIDTH` consecutive printable non-newline bytes leaves the
cursor at column `BUFFER_WIDTH`, not 0 — no scroll has happened yet. -/
theorem wrap_counterexample :
    (initWriter.write_string (List.replicate BUFFER_WIDTH 65)).column_position ≠ 0 := by
  have h := write_string_run (List.replicate BUFFER_WIDTH 65) initWriter
    (fun b hb => by rw [List.eq_of_mem_replicate hb]; omega) (by decide)
  rw [h.1]
  decide

/-- Claim C4 (amended): from cursor column 0, writing `BUFFER_WIDTH`
consecutive printable non-newline bytes leaves the cursor column at
`BUFFER_WIDTH` with no scroll having occurred — the rows above the bottom
are untouched and the run occupies the whole bottom row; the single scroll
happens at the next non-newline byte, which lands at column 0 of the fresh
bottom row, so the bottom row's later content reflects only bytes written
after the wrap. -/
theorem wrap_lazy (w : Writer) (s : List Nat) (b : Nat)
    (hcol : w.column_position = 0) (hlen : s.length = BUFFER_WIDTH)
    (hp : ∀ x ∈ s, 0x20 ≤ x ∧ x ≤ 0x7e) (hb : 0x20 ≤ b ∧ b ≤ 0x7e) :
    (w.write_string s).column_position = BUFFER_WIDTH ∧
    (∀ r c, r ≠ BUFFER_HEIGHT - 1 → (w.write_string s).buffer r c = w.buffer r c) ∧
    (∀ i, i < BUFFER_WIDTH →
      (w.write_string s).buffer (BUFFER_HEIGHT - 1) i = ⟨s.getD i 0, w.color_code⟩) ∧
    ((w.write_string s).write_byte b).column_position = 1 ∧
    ((w.write_string s).write_byte b).buffer (BUFFER_HEIGHT - 1) 0
      = ⟨b, w.color_code⟩ := by
  obtain ⟨hc, hcolor, hframe, hcontent⟩ := write_string_run s w hp (by omega)
  have hb10 : b ≠ 10 := by omega
  have hwide : (w.write_string s).column_position ≥ BUFFER_WIDTH := by
    rw [hc]; omega
  have hwrap := write_byte_wrap (w.write_string s) b hb10 hwide
  refine ⟨by rw [hc]; omega, fun r c hr => hframe r c (Or.inl hr), fun i hi => ?_, ?_, ?_⟩
  · have h2 := hcontent i (by omega)
    rw [hcol, Nat.zero_add] at h2
    exact h2
  · rw [hwrap]
  · rw [hwrap]
    show writeCell ((w.write_string s).new_line).buffer (BUFFER_HEIGHT - 1) 0
      ⟨b, (w.write_string s).color_code⟩ (BUFFER_HEIGHT - 1) 0 = ⟨b, w.color_code⟩
    rw [writeCell_apply, if_pos ⟨rfl, rfl⟩, hcolor]

/-- Concrete check of the amended Claim C4 on the initial writer. -/
theorem wrap_lazy_witness :
    (initWriter.write_string (List.replicate BUFFER_WIDTH 65)).column_position
        = BUFFER_WIDTH ∧
    ((initWriter.write_string (List.replicate BUFFER_WIDTH 65)).write_byte 66).column_position
        = 1 ∧
    ((initWriter.write_string (List.replicate BUFFER_WIDTH 65)).write_byte 66).buffer
        (BUFFER_HEIGHT - 1) 0 = ⟨66, initWriter.color_code⟩ :=
  ⟨(wrap_lazy initWriter (List.replicate BUFFER_WIDTH 65) 66 (by decide) (by decide)
      (fun x hx => by rw [List.eq_of_mem_replicate hx]; omega) (by decide)).1,
   (wrap_lazy initWriter (List.replicate BUFFER_WIDTH 65) 66 (by decide) (by decide)
      (fun x hx => by rw [List.eq_of_mem_replicate hx]; omega) (by decide)).2.2.2.1,
   (wrap_lazy initWriter (List.replicate BUFFER_WIDTH 65) 66 (by decide) (by decide)
      (fun x hx => by rw [List.eq_of_mem_replicate hx]; omega) (by decide)).2.2.2.2⟩

/-- The `write_string` distributes over list append. -/
theorem write_string_append (w : Writer) (s t : List Nat) :
    w.write_string (s ++ t) = (w.write_string s).write_string t := by
  simp only [Writer.write_string, List.foldl_append]

/-- Writing the single-byte string consisting of a newline is `new_line`. -/
theorem write_string_newline (w : Writer) :
    w.write_string [10] = w.new_line := by
  simp [Writer.write_string, write_byte_newline]

/-- After `k` newlines the bottom `k` on-screen rows are blank (space in the
current attribute), the attribute is unchanged, and for `k ≥ 1` the cursor
column is 0. -/
theorem newlines_blank_rows (k : Nat) : ∀ w : Writer,
    (w.write_string (List.replicate k 10)).color_code = w.color_code ∧
    (∀ r c, BUFFER_HEIGHT - k ≤ r → r < BUFFER_HEIGHT → c < BUFFER_WIDTH →
      (w.write_string (List.replicate k 10)).buffer r c = ⟨32, w.color_code⟩) ∧
    (1 ≤ k → (w.write_string (List.replicate k 10)).column_position = 0) := by
  have hH : BUFFER_HEIGHT = 25 := rfl
  induction k with
  | zero =>
    intro w
    exact ⟨rfl, fun r c h1 h2 hc => by omega, fun h => by omega⟩
  | succ k ih =>
    intro w
    rw [List.replicate_succ', write_string_append, write_string_newline]
    obtain ⟨ihcolor, ihrows, _⟩ := ih w
    refine ⟨?_, fun r c h1 h2 hc => ?_, fun _ => new_line_column _⟩
    · rw [new_line_color, ihcolor]
    · rw [new_line_buffer, ihcolor]
      by_cases hr : r = BUFFER_HEIGHT - 1
      · rw [if_pos ⟨hr, hc⟩]
      · rw [if_neg (by omega), if_pos ⟨by omega, hc⟩]
        exact ihrows (r + 1) c (by omega) (by omega) hc

/-- Claim C7: writing `BUFFER_HEIGHT` consecutive newline bytes blanks every
on-screen cell (space byte, current attribute) and resets the cursor column
to 0, from any initial writer state. -/
theorem newlines_blank (w : Writer) :
    (∀ r c, r < BUFFER_HEIGHT → c < BUFFER_WIDTH →
      (w.write_string (List.replicate BUFFER_HEIGHT 10)).buffer r c
        = ⟨32, w.color_code⟩) ∧
    (w.write_string (List.replicate BUFFER_HEIGHT 10)).column_position = 0 := by
  obtain ⟨hcolor, hrows, hcolumn⟩ := newlines_blank_rows BUFFER_HEIGHT w
  exact ⟨fun r c hr hc => hrows r c (by omega) hr hc, hcolumn (by decide)⟩

/-- Concrete check of Claim C7 on the initial writer. -/
theorem newlines_blank_witness :
    (initWriter.write_string (List.replicate BUFFER_HEIGHT 10)).buffer 0 0
        = ⟨32, initWriter.color_code⟩ ∧
    (initWriter.write_string (List.replicate BUFFER_HEIGHT 10)).column_position = 0 :=
  ⟨(newlines_blank initWriter).1 0 0 (by decide) (by decide),
   (newlines_blank initWriter).2⟩

/-- Over `Option`, a `foldlM` whose step never fails on the list's elements
computes the plain `foldl`. -/
theorem foldlM_option_eq_foldl {α β : Type} (f : β → α → Option β) (g : β → α → β) :
    ∀ l : List α, (∀ b a, a ∈ l → f b a = some (g b a)) →
      ∀ b, l.foldlM f b = some (l.foldl g b) := by
  intro l
  induction l with
  | nil => intro _ b; rfl
  | cons a t ih =>
    intro h b
    rw [List.foldlM_cons, List.foldl_cons, h b a (List.mem_cons_self a t)]
    exact ih (fun b2 x hx => h b2 x (List.mem_cons_of_mem a hx)) (g b a)

/-- Membership bounds for a step-one range. -/
theorem mem_range'_bounds {m s n : Nat} (h : m ∈ List.range' s n) :
    s ≤ m ∧ m < s + n := by
  obtain ⟨i, hi, rfl⟩ := List.mem_range'.mp h
  omega

/-- The checked `clear_row` never fails on an in-range row, and computes
exactly `clear_row`. -/
theorem clear_row_checked_eq (w : Writer) (row : Nat) (hrow : row < BUFFER_HEIGHT) :
    w.clear_row_checked row = some (w.clear_row row) := by
  have h := foldlM_option_eq_foldl
    (fun b col => writeCellChecked b row col ⟨32, w.color_code⟩)
    (fun b col => writeCell b row col ⟨32, w.color_code⟩)
    (List.range BUFFER_WIDTH)
    (fun b col hcol => by
      show (if row < BUFFER_HEIGHT ∧ col < BUFFER_WIDTH
          then some (writeCell b row col ⟨32, w.color_code⟩) else none)
        = some (writeCell b row col ⟨32, w.color_code⟩)
      rw [if_pos ⟨hrow, List.mem_range.mp hcol⟩])
    w.buffer
  simp only [Writer.clear_row_checked, Writer.clear_row]
  rw [h]
  rfl

/-- The checked `new_line` never fails, and computes exactly `new_line`. -/
theorem new_line_checked_eq (w : Writer) : w.new_line_checked = some w.new_line := by
  have hH : BUFFER_HEIGHT = 25 := rfl
  have houter := foldlM_option_eq_foldl
    (fun b row =>
      (List.range BUFFER_WIDTH).foldlM
        (fun b2 col => do
          let ch ← readCellChecked b2 row col
          writeCellChecked b2 (row - 1) col ch)
        b)
    (fun b row =>
      (List.range BUFFER_WIDTH).foldl
        (fun b2 col => writeCell b2 (row - 1) col (b2 row col)) b)
    (List.range' 1 (BUFFER_HEIGHT - 1))
    (fun b row hrow => by
      have hb := mem_range'_bounds hrow
      exact foldlM_option_eq_foldl _ _ (List.range BUFFER_WIDTH)
        (fun b2 col hcol => by
          have hc := List.mem_range.mp hcol
          have hread : readCellChecked b2 row col = some (b2 row col) := by
            unfold readCellChecked
            rw [if_pos ⟨by omega, hc⟩]
          have hwrite : writeCellChecked b2 (row - 1) col (b2 row col)
              = some (writeCell b2 (row - 1) col (b2 row col)) := by
            unfold writeCellChecked
            rw [if_pos ⟨by omega, hc⟩]
          show readCellChecked b2 row col >>=
              (fun ch => writeCellChecked b2 (row - 1) col ch)
            = some (writeCell b2 (row - 1) col (b2 row col))
          rw [hread]
          show writeCellChecked b2 (row - 1) col (b2 row col) = _
          exact hwrite)
        b)
    w.buffer
  unfold Writer.new_line_checked
  rw [houter]
  simp only [Option.bind_eq_bind, Option.some_bind]
  rw [clear_row_checked_eq _ _ (by omega)]
  simp only [Option.some_bind]
  rfl

/-- The checked `write_byte` never fails, and computes exactly `write_byte`. -/
theorem write_byte_checked_eq (w : Writer) (b : Nat) :
    w.write_byte_checked b = some (w.write_byte b) := by
  have hW : BUFFER_WIDTH = 80 := rfl
  have hH : BUFFER_HEIGHT = 25 := rfl
  by_cases hb : b = 10
  · subst hb
    unfold Writer.write_byte_checked
    rw [if_pos rfl, new_line_checked_eq, write_byte_newline]
  · by_cases hw : w.column_position ≥ BUFFER_WIDTH
    · unfold Writer.write_byte_checked
      rw [if_neg hb, if_pos hw, new_line_checked_eq]
      simp only [Option.bind_eq_bind, Option.some_bind]
      have hcell : writeCellChecked (w.new_line).buffer (BUFFER_HEIGHT - 1)
          (w.new_line).column_position ⟨b, (w.new_line).color_code⟩
          = some (writeCell (w.new_line).buffer (BUFFER_HEIGHT - 1)
              (w.new_line).column_position ⟨b, (w.new_line).color_code⟩) := by
        unfold writeCellChecked
        rw [new_line_column, if_pos ⟨by omega, by omega⟩]
      rw [hcell]
      simp only [Option.some_bind]
      rw [write_byte_wrap w b hb hw]
      show some { w.new_line with
          buffer := writeCell (w.new_line).buffer (BUFFER_HEIGHT - 1)
            (w.new_line).column_position ⟨b, (w.new_line).color_code⟩,
          column_position := (w.new_line).column_position + 1 } = _
      rw [new_line_column]
      rfl
    · unfold Writer.write_byte_checked
      rw [if_neg hb, if_neg hw]
      simp only [Option.bind_eq_bind, Option.some_bind]
      have hcell : writeCellChecked w.buffer (BUFFER_HEIGHT - 1) w.column_position
          ⟨b, w.color_code⟩
          = some (writeCell w.buffer (BUFFER_HEIGHT - 1) w.column_position
              ⟨b, w.color_code⟩) := by
        unfold writeCellChecked
        rw [if_pos ⟨by omega, by omega⟩]
      rw [hcell]
      simp only [Option.some_bind]
      rw [write_byte_no_wrap w b hb (by omega)]

/-- One checked `write_string` step equals the unchecked step wrapped in
`some`. -/
theorem write_step_checked_eq (wr : Writer) (byte : Nat) :
    (if (0x20 ≤ byte ∧ byte ≤ 0x7e) ∨ byte = 10 then wr.write_byte_checked byte
     else wr.write_byte_checked 0xfe)
      = some (if (0x20 ≤ byte ∧ byte ≤ 0x7e) ∨ byte = 10 then wr.write_byte byte
              else wr.write_byte 0xfe) := by
  split_ifs <;> rw [write_byte_checked_eq]

/-- The checked `write_string` never fails, and computes exactly
`write_string`. -/
theorem write_string_checked_eq (w : Writer) (s : List Nat) :
    w.write_string_checked s = some (w.write_string s) := by
  unfold Writer.write_string_checked Writer.write_string
  exact foldlM_option_eq_foldl _ _ s
    (fun wr byte _ => write_step_checked_eq wr byte) w

/-- Claim C6: every console operation is total — with every grid access
bounds-checked (`none` modelling an out-of-bounds access), each operation
always returns `some` and computes exactly its unchecked counterpart, for
every writer state, byte and string; so no access with `row ≥ BUFFER_HEIGHT`
or `col ≥ BUFFER_WIDTH` is ever attempted and no failure branch is
reachable. -/
theorem ops_total (w : Writer) (b : Nat) (s : List Nat) :
    w.write_byte_checked b = some (w.write_byte b) ∧
    w.write_string_checked s = some (w.write_string s) ∧
    w.new_line_checked = some w.new_line ∧
    w.clear_row_checked (BUFFER_HEIGHT - 1) = some (w.clear_row (BUFFER_HEIGHT - 1)) :=
  ⟨write_byte_checked_eq w b, write_string_checked_eq w s,
   new_line_checked_eq w,
   clear_row_checked_eq w (BUFFER_HEIGHT - 1) (by decide)⟩

/-- Claim C8: the attribute-packing constructor puts the foreground in the low
nibble and the background in the high nibble, for every pair of colors from
the closed 16-value enumeration; packing LightCyan on Black yields 0x0B. -/
theorem colorCode_new_packs :
    (∀ f b : Color,
      (ColorCode.new f b).val % 16 = f.toNat ∧
      (ColorCode.new f b).val / 16 = b.toNat ∧
      (ColorCode.new f b).val < 256) ∧
    ColorCode.new Color.LightCyan Color.Black = ⟨0x0B⟩ := by
  constructor
  · intro f b
    cases f <;> cases b <;> exact ⟨rfl, rfl, by decide⟩
  · rfl

end Vga
